import Mathlib

/-!
Shallow embedding of the reminder store of src/src/index.ts
(class ReminderManager) and proofs about its operations.

Modelling conventions:
- The JS Map of records is an insertion-ordered list of Reminder values;
  its keys are the id fields (Map.get, Map.set, Map.delete are findById,
  mapSet, removeById below, each acting on the first matching entry, the
  only one under the Map key-uniqueness discipline).
- Timestamps are natural numbers of milliseconds since the epoch: the code
  stores ISO-8601 strings and compares them only through getTime, which
  yields the millisecond count, so the string detour is dropped.
- External inputs (Date.now, the generated random id suffix, the archival
  sink outcome, the error text of a failed sink write) are injected as
  arguments.
- The persisted file is the parsed JSON object, an ordered list of
  key-record pairs; JSON stringify followed by parse is the identity on the
  string, enum and timestamp fields involved, so it is modelled as such.
-/

namespace Reminders

/-- Priority of a reminder: the TS union of the strings high, normal, low. -/
inductive Priority where
  | high
  | normal
  | low
deriving DecidableEq, Repr

/-- Lifecycle status: the TS union of the strings active, completed, moved. -/
inductive Status where
  | active
  | completed
  | moved
deriving DecidableEq, Repr

/-- One reminder record (interface Reminder in src/src/index.ts). -/
structure Reminder where
  id : String
  content : String
  priority : Priority
  created : Nat
  completed : Option Nat
  status : Status
deriving DecidableEq, Repr

/-- The string a priority value is, as compared against the filter string. -/
def priorityStr : Priority → String
  | .high => "high"
  | .normal => "normal"
  | .low => "low"

/-- Map.get keyed by the id field: the first (under key uniqueness, only)
entry whose id equals the key. -/
def findById : List Reminder → String → Option Reminder
  | [], _ => none
  | r :: rs, i => if r.id = i then some r else findById rs i

/-- In-place mutation of the record stored under a key: the entry keeps its
position, as a mutated JS Map entry does. -/
def updateById : List Reminder → String → (Reminder → Reminder) → List Reminder
  | [], _, _ => []
  | r :: rs, i, f => if r.id = i then f r :: rs else r :: updateById rs i f

/-- Map.delete: remove the entry stored under the key. -/
def removeById : List Reminder → String → List Reminder
  | [], _ => []
  | r :: rs, i => if r.id = i then rs else r :: removeById rs i

/-- Map.set keyed by the record id: overwrite in place when the key is
present, append otherwise. -/
def mapSet (l : List Reminder) (r : Reminder) : List Reminder :=
  if (findById l r.id).isSome then updateById l r.id (fun _ => r) else l ++ [r]

/-- The manager state: the in-memory Map and the contents of the reminders
file (none while the file is absent). -/
structure StoreState where
  mem : List Reminder
  disk : Option (List (String × Reminder))
deriving DecidableEq, Repr

/-- Object.fromEntries of the Map: each record keyed by its id, in order. -/
def serializeStore (mem : List Reminder) : List (String × Reminder) :=
  mem.map (fun r => (r.id, r))

/-- saveReminders: serialize the whole Map and overwrite the file. -/
def saveReminders (s : StoreState) : StoreState :=
  { s with disk := some (serializeStore s.mem) }

/-- Map.set on an entry list keyed by the first component, as used by the
Map constructor. -/
def entrySet (m : List (String × Reminder)) (e : String × Reminder) :
    List (String × Reminder) :=
  if m.any (fun p => p.1 == e.1) then
    m.map (fun p => if p.1 = e.1 then e else p)
  else m ++ [e]

/-- new Map(Object.entries(parsed)): insert the entries in order with
Map.set semantics. -/
def mapFromEntries (es : List (String × Reminder)) : List (String × Reminder) :=
  es.foldl entrySet []

/-- loadReminders applied to the parsed file object: the record collection
of the Map built from its entries. -/
def loadStore (es : List (String × Reminder)) : List Reminder :=
  (mapFromEntries es).map (fun p => p.2)

/-- addReminder. The generated id (clock value plus random suffix) and the
current time are injected as arguments; the TS default for priority is
normal. -/
def addReminder (s : StoreState) (content : String)
    (priority : Priority := .normal) (id : String) (now : Nat) :
    StoreState × String :=
  let r : Reminder :=
    { id := id, content := content, priority := priority, created := now,
      completed := none, status := .active }
  (saveReminders { s with mem := mapSet s.mem r }, id)

/-- The sort rank of a priority (the priorityOrder table: high first). -/
def priorityOrder : Priority → Nat
  | .high => 0
  | .normal => 1
  | .low => 2

/-- The comparator passed to sort: the priority rank difference when it is
nonzero, otherwise the difference of the created timestamps. -/
def remCmp (a b : Reminder) : Int :=
  let priDiff : Int :=
    (priorityOrder a.priority : Int) - (priorityOrder b.priority : Int)
  if priDiff ≠ 0 then priDiff else (a.created : Int) - (b.created : Int)

/-- Insert into a sorted list at the stable position: before the first entry
the element compares less-or-equal to. -/
def insertSorted (a : Reminder) : List Reminder → List Reminder
  | [] => [a]
  | b :: bs => if remCmp a b ≤ 0 then a :: b :: bs else b :: insertSorted a bs

/-- Stable sort by the comparator, modelling Array.prototype.sort (which the
language requires to be stable). -/
def sortReminders : List Reminder → List Reminder
  | [] => []
  | a :: as => insertSorted a (sortReminders as)

/-- getReminders: keep the active records, restrict to the filter priority
unless the filter is all, and sort. -/
def getReminders (s : StoreState) (filter : String := "all") : List Reminder :=
  let active := s.mem.filter (fun r => decide (r.status = Status.active))
  let chosen :=
    if filter ≠ "all" then
      active.filter (fun r => decide (priorityStr r.priority = filter))
    else active
  sortReminders chosen

/-- completeReminder: only an active record is marked completed and stamped
with the completion time. -/
def completeReminder (s : StoreState) (id : String) (now : Nat) :
    StoreState × Bool :=
  match findById s.mem id with
  | none => (s, false)
  | some r =>
    if r.status = Status.active then
      (saveReminders { s with
        mem := updateById s.mem id
          (fun q => { q with status := Status.completed, completed := some now }) },
       true)
    else (s, false)

/-- deleteReminder: remove under the key regardless of status; save only
when something was removed. -/
def deleteReminder (s : StoreState) (id : String) : StoreState × Bool :=
  if (findById s.mem id).isSome then
    (saveReminders { s with mem := removeById s.mem id }, true)
  else (s, false)

/-- The outcome record of moveToNotes. -/
structure MoveResult where
  success : Bool
  message : String
deriving DecidableEq, Repr

/-- The generated archival filename. -/
def moveFilename (dateStr id : String) : String :=
  "reminder_" ++ dateStr ++ "_" ++ id ++ ".md"

/-- moveToNotes. The archival sink write is external I/O: sinkOk injects
whether the directory creation and file write succeed, dateStr the date part
of the generated filename, errText the text of the thrown error. The
additional note only affects the document handed to the sink, never the
state. The status mutation and save happen after the sink write succeeds. -/
def moveToNotes (s : StoreState) (id : String)
    (additionalNote : Option String := none) (sinkOk : Bool)
    (dateStr errText : String) : StoreState × MoveResult :=
  match findById s.mem id with
  | none => (s, { success := false,
                  message := "Reminder not found or already processed" })
  | some r =>
    if r.status = Status.active then
      if sinkOk then
        (saveReminders { s with
          mem := updateById s.mem id (fun q => { q with status := Status.moved }) },
         { success := true,
           message := "Moved to notes: " ++ moveFilename dateStr id })
      else (s, { success := false,
                 message := "Error moving to notes: " ++ errText })
    else (s, { success := false,
               message := "Reminder not found or already processed" })

/-- The purge condition of clearOldReminders: not active, and created
strictly before the cutoff (now minus the day count in milliseconds). -/
def purgeCond (now days : Nat) (r : Reminder) : Bool :=
  decide (r.status ≠ Status.active) &&
    decide ((r.created : Int) < (now : Int) - (days : Int) * 86400000)

/-- clearOldReminders: delete every record matching the purge condition,
count them, and save only when at least one was removed. The TS default for
days is 7. -/
def clearOldReminders (s : StoreState) (now : Nat) (days : Nat := 7) :
    StoreState × Nat :=
  let kept := s.mem.filter (fun r => !purgeCond now days r)
  let count := (s.mem.filter (purgeCond now days)).length
  (if count > 0 then saveReminders { s with mem := kept }
   else { s with mem := kept }, count)

/-- One call against the store, with its external inputs (clock, generated
id, archival sink outcome) made explicit. -/
inductive Op where
  | addOp (content : String) (priority : Priority) (id : String) (now : Nat)
  | listOp (filter : String)
  | completeOp (id : String) (now : Nat)
  | deleteOp (id : String)
  | moveOp (id : String) (note : Option String) (sinkOk : Bool)
      (dateStr errText : String)
  | purgeOp (days now : Nat)

/-- The state after one call. -/
def applyOp (s : StoreState) : Op → StoreState
  | .addOp c p i n => (addReminder s c p i n).1
  | .listOp _ => s
  | .completeOp i n => (completeReminder s i n).1
  | .deleteOp i => (deleteReminder s i).1
  | .moveOp i note ok d e => (moveToNotes s i note ok d e).1
  | .purgeOp d n => (clearOldReminders s n d).1

/-- The id generator never hands out a live id within the process. -/
def opFresh (s : StoreState) : Op → Prop
  | .addOp _ _ i _ => findById s.mem i = none
  | _ => True

/-- Run a call sequence from a state. -/
def runFrom (s : StoreState) : List Op → StoreState
  | [] => s
  | op :: ops => runFrom (applyOp s op) ops

/-- Every generated id along the run is fresh at its point of use. -/
def FreshRun : StoreState → List Op → Prop
  | _, [] => True
  | s, op :: ops => opFresh s op ∧ FreshRun (applyOp s op) ops

/-- The state before any operation: empty Map, file absent. -/
def startState : StoreState := { mem := [], disk := none }

/-! ### Lemmas on the Map model -/

theorem findById_eq_none_iff {l : List Reminder} {i : String} :
    findById l i = none ↔ ∀ r ∈ l, r.id ≠ i := by
  induction l with
  | nil => simp [findById]
  | cons r rs ih =>
    by_cases h : r.id = i <;> simp [findById, h, ih]

theorem findById_mem {l : List Reminder} {i : String} {r : Reminder}
    (h : findById l i = some r) : r ∈ l ∧ r.id = i := by
  induction l with
  | nil => simp [findById] at h
  | cons x xs ih =>
    by_cases hx : x.id = i
    · simp [findById, hx] at h
      subst h
      exact ⟨List.mem_cons_self _ _, hx⟩
    · simp [findById, hx] at h
      rcases ih h with ⟨hm, hi⟩
      exact ⟨List.mem_cons_of_mem _ hm, hi⟩

theorem findById_append_some {l l2 : List Reminder} {i : String} {r : Reminder}
    (h : findById l i = some r) : findById (l ++ l2) i = some r := by
  induction l with
  | nil => simp [findById] at h
  | cons x xs ih =>
    by_cases hx : x.id = i <;> simp [findById, hx] at h ⊢
    · exact h
    · exact ih h

theorem findById_append_none {l l2 : List Reminder} {i : String}
    (h : findById l i = none) : findById (l ++ l2) i = findById l2 i := by
  induction l with
  | nil => simp
  | cons x xs ih =>
    by_cases hx : x.id = i <;> simp [findById, hx] at h ⊢
    exact ih h

theorem updateById_map_id {l : List Reminder} {i : String}
    {f : Reminder → Reminder} (hf : ∀ q, (f q).id = q.id) :
    (updateById l i f).map (fun r => r.id) = l.map (fun r => r.id) := by
  induction l with
  | nil => rfl
  | cons x xs ih =>
    by_cases hx : x.id = i <;> simp [updateById, hx, hf, ih]

theorem findById_updateById_self {l : List Reminder} {i : String}
    {f : Reminder → Reminder} (hf : ∀ q, (f q).id = q.id) :
    findById (updateById l i f) i = (findById l i).map f := by
  induction l with
  | nil => rfl
  | cons x xs ih =>
    by_cases hx : x.id = i <;>
      simp [updateById, findById, hx, hf, ih]

theorem findById_updateById_ne {l : List Reminder} {i j : String}
    {f : Reminder → Reminder} (hf : ∀ q, (f q).id = q.id) (hne : j ≠ i) :
    findById (updateById l i f) j = findById l j := by
  induction l with
  | nil => rfl
  | cons x xs ih =>
    by_cases hx : x.id = i
    · subst hx
      simp [updateById, findById, hf, Ne.symm hne]
    · by_cases hxj : x.id = j <;> simp [updateById, findById, hx, hxj, ih, hne]

theorem mem_updateById {l : List Reminder} {i : String}
    {f : Reminder → Reminder} {q : Reminder} (h : q ∈ updateById l i f) :
    q ∈ l ∨ ∃ r, r ∈ l ∧ r.id = i ∧ q = f r := by
  induction l with
  | nil => simp [updateById] at h
  | cons x xs ih =>
    by_cases hx : x.id = i
    · simp [updateById, hx] at h
      rcases h with h | h
      · exact Or.inr ⟨x, List.mem_cons_self _ _, hx, h⟩
      · exact Or.inl (List.mem_cons_of_mem _ h)
    · simp [updateById, hx] at h
      rcases h with h | h
      · exact Or.inl (by simp [h])
      · rcases ih h with h | ⟨r, hr, hi, hq⟩
        · exact Or.inl (List.mem_cons_of_mem _ h)
        · exact Or.inr ⟨r, List.mem_cons_of_mem _ hr, hi, hq⟩

theorem removeById_sublist (l : List Reminder) (i : String) :
    (removeById l i).Sublist l := by
  induction l with
  | nil => simp [removeById]
  | cons x xs ih =>
    by_cases hx : x.id = i
    · simp only [removeById, if_pos hx]
      exact List.sublist_cons_self x xs
    · simp only [removeById, if_neg hx]
      exact List.Sublist.cons₂ x ih

theorem findById_removeById_ne {l : List Reminder} {i j : String}
    (hne : j ≠ i) : findById (removeById l i) j = findById l j := by
  induction l with
  | nil => rfl
  | cons x xs ih =>
    by_cases hx : x.id = i
    · subst hx
      simp [removeById, findById, Ne.symm hne]
    · by_cases hxj : x.id = j <;> simp [removeById, findById, hx, hxj, ih, hne]

theorem findById_removeById_self {l : List Reminder} {i : String}
    (hd : (l.map (fun r => r.id)).Nodup) :
    findById (removeById l i) i = none := by
  induction l with
  | nil => rfl
  | cons x xs ih =>
    simp only [List.map_cons, List.nodup_cons] at hd
    by_cases hx : x.id = i
    · subst hx
      simp [removeById]
      rw [findById_eq_none_iff]
      intro r hr hri
      exact hd.1 (hri ▸ List.mem_map_of_mem (fun r => r.id) hr)
    · simp [removeById, findById, hx]
      exact ih hd.2

theorem mem_removeById_of_ne {l : List Reminder} {i : String} {q : Reminder}
    (hq : q ∈ l) (hne : q.id ≠ i) : q ∈ removeById l i := by
  induction l with
  | nil => simp at hq
  | cons x xs ih =>
    by_cases hx : x.id = i
    · simp [removeById, hx]
      rcases List.mem_cons.mp hq with h | h
      · exact absurd (h ▸ hx) hne
      · exact h
    · simp [removeById, hx]
      rcases List.mem_cons.mp hq with h | h
      · exact Or.inl h
      · exact Or.inr (ih h)

theorem mem_id_unique {l : List Reminder} {i : String} {r q : Reminder}
    (hd : (l.map (fun x => x.id)).Nodup) (hf : findById l i = some r)
    (hq : q ∈ l) (hqi : q.id = i) : q = r := by
  induction l with
  | nil => simp [findById] at hf
  | cons x xs ih =>
    simp only [List.map_cons, List.nodup_cons] at hd
    by_cases hx : x.id = i
    · simp only [findById, if_pos hx, Option.some.injEq] at hf
      rcases List.mem_cons.mp hq with h | h
      · rw [h, hf]
      · have hmem : q.id ∈ xs.map (fun y => y.id) :=
          List.mem_map_of_mem (fun y => y.id) h
        rw [hqi, ← hx] at hmem
        exact absurd hmem hd.1
    · simp only [findById, if_neg hx] at hf
      rcases List.mem_cons.mp hq with h | h
      · rw [h] at hqi
        exact absurd hqi hx
      · exact ih hd.2 hf h

theorem findById_of_mem {l : List Reminder} {q : Reminder}
    (hq : q ∈ l) : ∃ r, findById l q.id = some r := by
  induction l with
  | nil => simp at hq
  | cons x xs ih =>
    by_cases hx : x.id = q.id
    · exact ⟨x, by simp [findById, hx]⟩
    · rcases List.mem_cons.mp hq with h | h
      · subst h
        exact absurd rfl hx
      · rcases ih h with ⟨r, hr⟩
        exact ⟨r, by simp [findById, hx, hr]⟩

/-! ### Lemmas on the comparator and the stable sort -/

theorem remCmp_eq (a b : Reminder) :
    remCmp a b =
      if (priorityOrder a.priority : Int) - (priorityOrder b.priority : Int) ≠ 0
      then (priorityOrder a.priority : Int) - (priorityOrder b.priority : Int)
      else (a.created : Int) - (b.created : Int) := rfl

/-- The sortedness relation the comparator induces on the sorted output. -/
abbrev remLE (a b : Reminder) : Prop := remCmp a b ≤ 0

theorem remCmp_le_iff {a b : Reminder} :
    remCmp a b ≤ 0 ↔
      (priorityOrder a.priority < priorityOrder b.priority ∨
        (priorityOrder a.priority = priorityOrder b.priority ∧
          a.created ≤ b.created)) := by
  rw [remCmp_eq]
  split <;> omega

theorem remCmp_total {a b : Reminder} (h : ¬ remCmp a b ≤ 0) :
    remCmp b a ≤ 0 := by
  rw [remCmp_le_iff] at h ⊢
  omega

theorem remCmp_trans {a b c : Reminder} (hab : remCmp a b ≤ 0)
    (hbc : remCmp b c ≤ 0) : remCmp a c ≤ 0 := by
  rw [remCmp_le_iff] at hab hbc ⊢
  omega

theorem remCmp_eq_zero_of_key {a b : Reminder} (hp : a.priority = b.priority)
    (hc : a.created = b.created) : remCmp a b = 0 := by
  rw [remCmp_eq, hp, hc]
  simp

theorem insertSorted_perm (a : Reminder) (l : List Reminder) :
    (insertSorted a l).Perm (a :: l) := by
  induction l with
  | nil => exact List.Perm.refl _
  | cons b bs ih =>
    by_cases h : remCmp a b ≤ 0
    · simp only [insertSorted, if_pos h]
      exact List.Perm.refl _
    · simp only [insertSorted, if_neg h]
      exact (ih.cons b).trans (List.Perm.swap a b bs)

theorem sortReminders_perm (l : List Reminder) : (sortReminders l).Perm l := by
  induction l with
  | nil => exact List.Perm.refl _
  | cons a as ih =>
    exact (insertSorted_perm a (sortReminders as)).trans (ih.cons a)

theorem insertSorted_pairwise {a : Reminder} {l : List Reminder}
    (hl : l.Pairwise remLE) : (insertSorted a l).Pairwise remLE := by
  induction l with
  | nil => simp [insertSorted]
  | cons b bs ih =>
    rcases List.pairwise_cons.mp hl with ⟨hb, hbs⟩
    by_cases h : remCmp a b ≤ 0
    · simp only [insertSorted, if_pos h]
      refine List.Pairwise.cons ?_ hl
      intro y hy
      rcases List.mem_cons.mp hy with rfl | hy
      · exact h
      · exact remCmp_trans h (hb y hy)
    · simp only [insertSorted, if_neg h]
      refine List.Pairwise.cons ?_ (ih hbs)
      intro y hy
      have hy2 := (insertSorted_perm a bs).mem_iff.mp hy
      rcases List.mem_cons.mp hy2 with rfl | hy2
      · exact remCmp_total h
      · exact hb y hy2

theorem sortReminders_pairwise (l : List Reminder) :
    (sortReminders l).Pairwise remLE := by
  induction l with
  | nil => simp [sortReminders]
  | cons a as ih => exact insertSorted_pairwise ih

/-- The Boolean test for one tie class of the comparator: a fixed priority
and a fixed created timestamp. -/
def keyIs (p : Priority) (c : Nat) (r : Reminder) : Bool :=
  decide (r.priority = p) && decide (r.created = c)

theorem keyIs_clash {p : Priority} {c : Nat} {a b : Reminder}
    (ha : keyIs p c a = true) (hb : keyIs p c b = true) : remCmp a b = 0 := by
  simp only [keyIs, Bool.and_eq_true, decide_eq_true_eq] at ha hb
  exact remCmp_eq_zero_of_key (ha.1.trans hb.1.symm) (ha.2.trans hb.2.symm)

theorem filter_insertSorted (p : Priority) (c : Nat) (a : Reminder)
    (l : List Reminder) :
    (insertSorted a l).filter (keyIs p c) =
      if keyIs p c a then a :: l.filter (keyIs p c)
      else l.filter (keyIs p c) := by
  induction l with
  | nil =>
    simp only [insertSorted]
    rw [List.filter_cons, List.filter_nil]
  | cons b bs ih =>
    by_cases h : remCmp a b ≤ 0
    · simp only [insertSorted, if_pos h]
      rw [List.filter_cons]
    · simp only [insertSorted, if_neg h]
      by_cases hb : keyIs p c b
      · have ha : ¬ keyIs p c a = true := fun ha => h (le_of_eq (keyIs_clash ha hb))
        rw [List.filter_cons, if_pos hb, ih, if_neg ha, List.filter_cons, if_pos hb,
          if_neg ha]
      · rw [List.filter_cons, if_neg hb, ih, List.filter_cons, if_neg hb]

theorem sortReminders_filter_key (p : Priority) (c : Nat) (l : List Reminder) :
    (sortReminders l).filter (keyIs p c) = l.filter (keyIs p c) := by
  induction l with
  | nil => rfl
  | cons a as ih =>
    simp only [sortReminders]
    rw [filter_insertSorted, ih, List.filter_cons]

theorem filter_and (p q : Reminder → Bool) (l : List Reminder) :
    (l.filter p).filter q = l.filter (fun r => p r && q r) := by
  induction l with
  | nil => rfl
  | cons x xs ih =>
    by_cases hp : p x
    · by_cases hq : q x <;> simp [List.filter_cons, hp, hq, ih]
    · simp [List.filter_cons, hp, ih]

/-- The selection the list operation makes, as one test: status active, and
the filter is all or names the priority of the record. -/
def selCond (filter : String) (r : Reminder) : Bool :=
  decide (r.status = Status.active) &&
    (decide (filter = "all") || decide (priorityStr r.priority = filter))

theorem getReminders_eq_sort_sel (s : StoreState) (f : String) :
    getReminders s f = sortReminders (s.mem.filter (selCond f)) := by
  simp only [getReminders]
  by_cases hf : f = "all"
  · subst hf
    rw [if_neg (by simp)]
    congr 1
    congr 1
    funext r
    simp [selCond]
  · rw [if_pos hf, filter_and]
    congr 1
    congr 1
    funext r
    simp [selCond, hf]

/-! ### Equation lemmas for the operations -/

/-- The record update the complete operation performs. -/
def completeMark (now : Nat) (q : Reminder) : Reminder :=
  { q with status := Status.completed, completed := some now }

/-- The record update the move operation performs. -/
def moveMark (q : Reminder) : Reminder :=
  { q with status := Status.moved }

theorem addReminder_eq (s : StoreState) (content : String) (p : Priority)
    (id : String) (now : Nat) :
    addReminder s content p id now =
      ({ mem := mapSet s.mem
           { id := id, content := content, priority := p, created := now,
             completed := none, status := Status.active },
         disk := some (serializeStore (mapSet s.mem
           { id := id, content := content, priority := p, created := now,
             completed := none, status := Status.active })) }, id) := rfl

theorem completeReminder_none {s : StoreState} {id : String} (now : Nat)
    (h : findById s.mem id = none) : completeReminder s id now = (s, false) := by
  simp only [completeReminder, h]

theorem completeReminder_notActive {s : StoreState} {id : String}
    {r : Reminder} (now : Nat) (h : findById s.mem id = some r)
    (hna : ¬ r.status = Status.active) :
    completeReminder s id now = (s, false) := by
  simp only [completeReminder, h, if_neg hna]

theorem completeReminder_active {s : StoreState} {id : String} {r : Reminder}
    (now : Nat) (h : findById s.mem id = some r)
    (ha : r.status = Status.active) :
    completeReminder s id now =
      ({ mem := updateById s.mem id (completeMark now),
         disk := some (serializeStore (updateById s.mem id (completeMark now))) },
       true) := by
  simp only [completeReminder, h, if_pos ha, saveReminders]
  rfl

theorem deleteReminder_none {s : StoreState} {id : String}
    (h : findById s.mem id = none) : deleteReminder s id = (s, false) := by
  simp only [deleteReminder, h, Option.isSome_none, Bool.false_eq_true, if_false]

theorem deleteReminder_some {s : StoreState} {id : String} {r : Reminder}
    (h : findById s.mem id = some r) :
    deleteReminder s id =
      ({ mem := removeById s.mem id,
         disk := some (serializeStore (removeById s.mem id)) }, true) := by
  simp only [deleteReminder, h, Option.isSome_some, if_true, saveReminders]

theorem moveToNotes_none {s : StoreState} {id : String} {note : Option String}
    {sinkOk : Bool} {dateStr errText : String}
    (h : findById s.mem id = none) :
    moveToNotes s id note sinkOk dateStr errText =
      (s, { success := false,
            message := "Reminder not found or already processed" }) := by
  simp only [moveToNotes, h]

theorem moveToNotes_notActive {s : StoreState} {id : String}
    {note : Option String} {sinkOk : Bool} {dateStr errText : String}
    {r : Reminder} (h : findById s.mem id = some r)
    (hna : ¬ r.status = Status.active) :
    moveToNotes s id note sinkOk dateStr errText =
      (s, { success := false,
            message := "Reminder not found or already processed" }) := by
  simp only [moveToNotes, h, if_neg hna]

theorem moveToNotes_sinkFail {s : StoreState} {id : String}
    {note : Option String} {dateStr errText : String} {r : Reminder}
    (h : findById s.mem id = some r) (ha : r.status = Status.active) :
    moveToNotes s id note false dateStr errText =
      (s, { success := false,
            message := "Error moving to notes: " ++ errText }) := by
  simp only [moveToNotes, h, if_pos ha, Bool.false_eq_true, if_false]

theorem moveToNotes_ok {s : StoreState} {id : String} {note : Option String}
    {dateStr errText : String} {r : Reminder}
    (h : findById s.mem id = some r) (ha : r.status = Status.active) :
    moveToNotes s id note true dateStr errText =
      ({ mem := updateById s.mem id moveMark,
         disk := some (serializeStore (updateById s.mem id moveMark)) },
       { success := true,
         message := "Moved to notes: " ++ moveFilename dateStr id }) := by
  simp only [moveToNotes, h, if_pos ha, if_true, saveReminders]
  rfl

theorem clearOldReminders_eq (s : StoreState) (now days : Nat) :
    clearOldReminders s now days =
      (if (s.mem.filter (purgeCond now days)).length > 0 then
        { mem := s.mem.filter (fun r => !purgeCond now days r),
          disk := some (serializeStore
            (s.mem.filter (fun r => !purgeCond now days r))) }
       else
        { mem := s.mem.filter (fun r => !purgeCond now days r),
          disk := s.disk },
       (s.mem.filter (purgeCond now days)).length) := by
  simp only [clearOldReminders, saveReminders]

/-! ### Claim theorems -/

/-- C1: for every store state and every filter among all, high, normal and
low, the list operation returns exactly the status-active records (further
restricted to the given priority when the filter is a priority value): the
result is a permutation of that selection, sorted by priority rank (high 0,
normal 1, low 2) ascending with the created timestamp ascending as the tie
break, records of equal priority and equal created timestamp keep their
insertion order (the filter over any tie class is unchanged), and when the
selection is empty the result is the empty list, not an error. -/
theorem claim1_list_exact (s : StoreState) (f : String)
    (hf : f = "all" ∨ f = "high" ∨ f = "normal" ∨ f = "low") :
    (getReminders s f).Perm (s.mem.filter (selCond f)) ∧
    (getReminders s f).Pairwise (fun a b =>
      priorityOrder a.priority < priorityOrder b.priority ∨
        (priorityOrder a.priority = priorityOrder b.priority ∧
          a.created ≤ b.created)) ∧
    (∀ p c, (getReminders s f).filter (keyIs p c) =
      (s.mem.filter (selCond f)).filter (keyIs p c)) ∧
    (s.mem.filter (selCond f) = [] → getReminders s f = []) := by
  rw [getReminders_eq_sort_sel]
  refine ⟨sortReminders_perm _, ?_, fun p c => sortReminders_filter_key p c _, ?_⟩
  · exact (sortReminders_pairwise _).imp (fun h => remCmp_le_iff.mp h)
  · intro h
    rw [h]
    rfl

/-- A concrete two-record store (one high, one normal, both active) used by
witness statements. -/
def sampleStore : StoreState :=
  { mem := [⟨"a", "alpha", Priority.high, 10, none, Status.active⟩,
            ⟨"b", "beta", Priority.normal, 5, none, Status.active⟩],
    disk := none }

/-- A concrete mixed-status store used by witness statements: one active,
one completed, one moved record. -/
def mixedStore : StoreState :=
  { mem := [⟨"a", "alpha", Priority.high, 10, none, Status.active⟩,
            ⟨"b", "beta", Priority.normal, 5, some 7, Status.completed⟩,
            ⟨"c", "gamma", Priority.low, 3, none, Status.moved⟩],
    disk := none }

/-- Witness for C1: the two-record store and the filter all. -/
theorem claim1_list_exact_witness :
    (("all" : String) = "all" ∨ ("all" : String) = "high" ∨
      ("all" : String) = "normal" ∨ ("all" : String) = "low") ∧
    ((getReminders sampleStore "all").Perm
        (sampleStore.mem.filter (selCond "all")) ∧
     (getReminders sampleStore "all").Pairwise (fun a b =>
        priorityOrder a.priority < priorityOrder b.priority ∨
          (priorityOrder a.priority = priorityOrder b.priority ∧
            a.created ≤ b.created)) ∧
     (∀ p c, (getReminders sampleStore "all").filter (keyIs p c) =
        (sampleStore.mem.filter (selCond "all")).filter (keyIs p c)) ∧
     (sampleStore.mem.filter (selCond "all") = [] →
        getReminders sampleStore "all" = [])) :=
  ⟨Or.inl rfl, claim1_list_exact sampleStore "all" (Or.inl rfl)⟩

/-- C9: a filter string that is neither all nor one of the three priority
values makes the list operation return the empty list: it neither errors
nor falls back to all active records. -/
theorem claim9_unknown_filter_empty (s : StoreState) (f : String)
    (h1 : f ≠ "all") (h2 : f ≠ "high") (h3 : f ≠ "normal") (h4 : f ≠ "low") :
    getReminders s f = [] := by
  rw [getReminders_eq_sort_sel]
  have hsel : s.mem.filter (selCond f) = [] := by
    induction s.mem with
    | nil => rfl
    | cons r rs ih =>
      rw [List.filter_cons, if_neg ?_, ih]
      cases hp : r.priority <;>
        simp [selCond, priorityStr, hp, h1, Ne.symm h2, Ne.symm h3, Ne.symm h4]
  rw [hsel]
  rfl

/-- Witness for C9: the filter urgent on the two-record store. -/
theorem claim9_unknown_filter_empty_witness :
    ("urgent" : String) ≠ "all" ∧ ("urgent" : String) ≠ "high" ∧
    ("urgent" : String) ≠ "normal" ∧ ("urgent" : String) ≠ "low" ∧
    getReminders sampleStore "urgent" = [] :=
  ⟨by decide, by decide, by decide, by decide,
    claim9_unknown_filter_empty sampleStore "urgent" (by decide) (by decide)
      (by decide) (by decide)⟩

/-- Membership in a list result is membership in the selection. -/
theorem mem_getReminders {s : StoreState} {f : String} {q : Reminder} :
    q ∈ getReminders s f ↔ q ∈ s.mem.filter (selCond f) := by
  rw [getReminders_eq_sort_sel]
  exact (sortReminders_perm _).mem_iff

/-- C4: completing an id returns true exactly when the id names a record of
status active; then the record becomes status completed with the completion
time stamped, nothing else of it changes and every other entry is
untouched; on an absent id or a record already completed or moved it
returns false (no exception) and leaves the state unchanged, so a second
completion of the same id returns false. -/
theorem claim4_complete (s : StoreState) (id : String) (now : Nat) :
    ((completeReminder s id now).2 = true ↔
      ∃ r, findById s.mem id = some r ∧ r.status = Status.active) ∧
    (∀ r, findById s.mem id = some r → r.status = Status.active →
      findById (completeReminder s id now).1.mem id =
        some { r with status := Status.completed, completed := some now }) ∧
    (∀ j, j ≠ id →
      findById (completeReminder s id now).1.mem j = findById s.mem j) ∧
    ((completeReminder s id now).2 = false → (completeReminder s id now).1 = s) ∧
    (∀ tnow, (completeReminder s id now).2 = true →
      (completeReminder (completeReminder s id now).1 id tnow).2 = false) := by
  cases hfind : findById s.mem id with
  | none =>
    rw [completeReminder_none now hfind]
    refine ⟨?_, ?_, fun j _ => rfl, fun _ => rfl, ?_⟩
    · simp only [Bool.false_eq_true, false_iff]
      rintro ⟨r, hr, _⟩
      exact Option.noConfusion hr
    · intro r hr
      exact absurd hr (by simp)
    · intro tnow h
      exact absurd h (by simp)
  | some r =>
    by_cases hact : r.status = Status.active
    · rw [completeReminder_active now hfind hact]
      have hupd : findById (updateById s.mem id (completeMark now)) id =
        some (completeMark now r) := by
        rw [@findById_updateById_self s.mem id (completeMark now) (fun q => rfl),
          hfind]
        rfl
      refine ⟨?_, ?_, ?_, ?_, ?_⟩
      · simp only [true_iff]
        exact ⟨r, rfl, hact⟩
      · intro r2 hr2 _
        cases hr2
        exact hupd
      · intro j hj
        exact findById_updateById_ne (fun q => rfl) hj
      · intro h
        exact absurd h (by simp)
      · intro tnow _
        rw [completeReminder_notActive tnow hupd (by simp [completeMark])]
    · rw [completeReminder_notActive now hfind hact]
      refine ⟨?_, ?_, fun j _ => rfl, fun _ => rfl, ?_⟩
      · simp only [Bool.false_eq_true, false_iff]
        rintro ⟨r2, hr2, hact2⟩
        cases hr2
        exact hact hact2
      · intro r2 hr2 hact2
        cases hr2
        exact absurd hact2 hact
      · intro tnow h
        exact absurd h (by simp)

/-- Witness for C4 at the two-record store (vacuously quantified parts are
instantiated at the record with id a). -/
theorem claim4_complete_witness :
    ((completeReminder sampleStore "a" 20).2 = true ↔
      ∃ r, findById sampleStore.mem "a" = some r ∧ r.status = Status.active) ∧
    (∀ r, findById sampleStore.mem "a" = some r → r.status = Status.active →
      findById (completeReminder sampleStore "a" 20).1.mem "a" =
        some { r with status := Status.completed, completed := some 20 }) ∧
    (∀ j, j ≠ "a" →
      findById (completeReminder sampleStore "a" 20).1.mem j =
        findById sampleStore.mem j) ∧
    ((completeReminder sampleStore "a" 20).2 = false →
      (completeReminder sampleStore "a" 20).1 = sampleStore) ∧
    (∀ tnow, (completeReminder sampleStore "a" 20).2 = true →
      (completeReminder (completeReminder sampleStore "a" 20).1 "a" tnow).2
        = false) :=
  claim4_complete sampleStore "a" 20

/-- C6: deleting an id removes the record under it regardless of status and
returns true when one is present; every other record is kept and nothing
new appears; with no such record it returns false and the state is
unchanged. -/
theorem claim6_delete (s : StoreState) (id : String)
    (hd : (s.mem.map (fun r => r.id)).Nodup) :
    ((deleteReminder s id).2 = true ↔ ∃ r ∈ s.mem, r.id = id) ∧
    ((deleteReminder s id).2 = true →
      findById (deleteReminder s id).1.mem id = none) ∧
    (∀ q ∈ s.mem, q.id ≠ id → q ∈ (deleteReminder s id).1.mem) ∧
    (∀ q ∈ (deleteReminder s id).1.mem, q ∈ s.mem) ∧
    ((deleteReminder s id).2 = false → (deleteReminder s id).1 = s) := by
  cases hfind : findById s.mem id with
  | none =>
    rw [deleteReminder_none hfind]
    have hno : ∀ r ∈ s.mem, r.id ≠ id := findById_eq_none_iff.mp hfind
    refine ⟨?_, ?_, fun q hq _ => hq, fun q hq => hq, fun _ => rfl⟩
    · simp only [Bool.false_eq_true, false_iff]
      rintro ⟨r, hr, hri⟩
      exact hno r hr hri
    · intro h
      exact absurd h (by simp)
  | some r =>
    rw [deleteReminder_some hfind]
    rcases findById_mem hfind with ⟨hrmem, hrid⟩
    refine ⟨by simp only [true_iff]; exact ⟨r, hrmem, hrid⟩, ?_, ?_, ?_, ?_⟩
    · intro _
      exact findById_removeById_self hd
    · intro q hq hqne
      exact mem_removeById_of_ne hq hqne
    · intro q hq
      exact (removeById_sublist s.mem id).subset hq
    · intro h
      exact absurd h (by simp)

/-- Witness for C6: deleting the completed record of the mixed store. -/
theorem claim6_delete_witness :
    ((deleteReminder mixedStore "b").2 = true ↔
      ∃ r ∈ mixedStore.mem, r.id = "b") ∧
    ((deleteReminder mixedStore "b").2 = true →
      findById (deleteReminder mixedStore "b").1.mem "b" = none) ∧
    (∀ q ∈ mixedStore.mem, q.id ≠ "b" →
      q ∈ (deleteReminder mixedStore "b").1.mem) ∧
    (∀ q ∈ (deleteReminder mixedStore "b").1.mem, q ∈ mixedStore.mem) ∧
    ((deleteReminder mixedStore "b").2 = false →
      (deleteReminder mixedStore "b").1 = mixedStore) :=
  claim6_delete mixedStore "b" (by decide)

/-- C2: the move operation succeeds exactly when the id names an active
record and the archival handoff succeeds; on success the record is marked
moved, the returned message names the generated filename, and the id
appears in no list result; on any failure the success flag is false with a
diagnostic message and the state is left entirely unchanged (no partial
mutation), the record — when present and active — still appearing in the
list of all reminders. -/
theorem claim2_move (s : StoreState) (id : String) (note : Option String)
    (sinkOk : Bool) (dateStr errText : String)
    (hd : (s.mem.map (fun r => r.id)).Nodup) :
    ((moveToNotes s id note sinkOk dateStr errText).2.success = true ↔
      ((∃ r, findById s.mem id = some r ∧ r.status = Status.active) ∧
        sinkOk = true)) ∧
    ((moveToNotes s id note sinkOk dateStr errText).2.success = true →
      (∀ r, findById s.mem id = some r →
        findById (moveToNotes s id note sinkOk dateStr errText).1.mem id =
          some { r with status := Status.moved }) ∧
      (moveToNotes s id note sinkOk dateStr errText).2.message =
        "Moved to notes: " ++ moveFilename dateStr id ∧
      (∀ f q, q ∈ getReminders (moveToNotes s id note sinkOk dateStr errText).1 f →
        q.id ≠ id)) ∧
    ((moveToNotes s id note sinkOk dateStr errText).2.success = false →
      (moveToNotes s id note sinkOk dateStr errText).1 = s ∧
      (∀ r, findById s.mem id = some r → r.status = Status.active →
        r ∈ getReminders s "all")) := by
  cases hfind : findById s.mem id with
  | none =>
    rw [moveToNotes_none hfind]
    refine ⟨by simp, ?_, ?_⟩
    · intro h
      exact absurd h (by simp)
    · intro _
      refine ⟨rfl, ?_⟩
      intro r hr
      exact absurd hr (by simp)
  | some r =>
    by_cases hact : r.status = Status.active
    · cases sinkOk with
      | false =>
        rw [moveToNotes_sinkFail hfind hact]
        refine ⟨by simp, ?_, ?_⟩
        · intro h
          exact absurd h (by simp)
        · intro _
          refine ⟨rfl, ?_⟩
          intro r2 hr2 hact2
          cases hr2
          rw [mem_getReminders, List.mem_filter]
          exact ⟨(findById_mem hfind).1, by simp [selCond, hact2]⟩
      | true =>
        rw [moveToNotes_ok hfind hact]
        have hupd : findById (updateById s.mem id moveMark) id =
            some (moveMark r) := by
          rw [@findById_updateById_self s.mem id moveMark (fun q => rfl), hfind]
          rfl
        refine ⟨?_, ?_, ?_⟩
        · exact ⟨fun _ => ⟨⟨r, rfl, hact⟩, rfl⟩, fun _ => rfl⟩
        · intro _
          refine ⟨?_, rfl, ?_⟩
          · intro r2 hr2
            cases hr2
            exact hupd
          · intro f q hq hqid
            have hq2 := mem_getReminders.mp hq
            rw [List.mem_filter] at hq2
            have hd2 : ((updateById s.mem id moveMark).map
                (fun x => x.id)).Nodup := by
              rw [@updateById_map_id s.mem id moveMark (fun q => rfl)]
              exact hd
            have hqeq : q = moveMark r := mem_id_unique hd2 hupd hq2.1 hqid
            have hstat : q.status = Status.active := by
              have hsel := hq2.2
              simp only [selCond, Bool.and_eq_true, decide_eq_true_eq] at hsel
              exact hsel.1
            rw [hqeq] at hstat
            simp [moveMark] at hstat
        · intro h
          exact absurd h (by simp)
    · rw [moveToNotes_notActive hfind hact]
      refine ⟨?_, ?_, ?_⟩
      · simp only [Bool.false_eq_true, false_iff]
        rintro ⟨⟨r2, hr2, hact2⟩, _⟩
        cases hr2
        exact hact hact2
      · intro h
        exact absurd h (by simp)
      · intro _
        refine ⟨rfl, ?_⟩
        intro r2 hr2 hact2
        cases hr2
        exact absurd hact2 hact

/-- Witness for C2: moving the active record a of the two-record store with
a working sink. -/
theorem claim2_move_witness :
    ((moveToNotes sampleStore "a" none true "d" "e").2.success = true ↔
      ((∃ r, findById sampleStore.mem "a" = some r ∧
          r.status = Status.active) ∧ (true : Bool) = true)) ∧
    ((moveToNotes sampleStore "a" none true "d" "e").2.success = true →
      (∀ r, findById sampleStore.mem "a" = some r →
        findById (moveToNotes sampleStore "a" none true "d" "e").1.mem "a" =
          some { r with status := Status.moved }) ∧
      (moveToNotes sampleStore "a" none true "d" "e").2.message =
        "Moved to notes: " ++ moveFilename "d" "a" ∧
      (∀ f q, q ∈ getReminders
          (moveToNotes sampleStore "a" none true "d" "e").1 f → q.id ≠ "a")) ∧
    ((moveToNotes sampleStore "a" none true "d" "e").2.success = false →
      (moveToNotes sampleStore "a" none true "d" "e").1 = sampleStore ∧
      (∀ r, findById sampleStore.mem "a" = some r →
        r.status = Status.active → r ∈ getReminders sampleStore "all")) :=
  claim2_move sampleStore "a" none true "d" "e" (by decide)

theorem clearOldReminders_mem (s : StoreState) (now days : Nat) :
    (clearOldReminders s now days).1.mem =
      s.mem.filter (fun r => !purgeCond now days r) := by
  rw [clearOldReminders_eq]
  split <;> rfl

theorem clearOldReminders_count (s : StoreState) (now days : Nat) :
    (clearOldReminders s now days).2 =
      (s.mem.filter (purgeCond now days)).length := by
  rw [clearOldReminders_eq]

/-- C3 counterexample: with day count 0, a completed record whose created
timestamp equals the purge time is not removed (the cutoff comparison is
strict), so the purge with day count 0 does not remove every
completed or moved record. -/
theorem claim3_purge_counterexample :
    (⟨"b", "beta", Priority.normal, 5, some 5, Status.completed⟩ : Reminder) ∈
      (clearOldReminders
        { mem := [⟨"b", "beta", Priority.normal, 5, some 5, Status.completed⟩],
          disk := none } 5 0).1.mem ∧
    (clearOldReminders
        { mem := [⟨"b", "beta", Priority.normal, 5, some 5, Status.completed⟩],
          disk := none } 5 0).2 = 0 := by decide

/-- C3 (amended): the purge keeps exactly the records that are active or
whose created timestamp is not strictly older than now minus the day count
(days times 86400000 milliseconds), returns the number removed, leaves the
file untouched when that number is 0 and writes the new serialization when
it is positive; active records are never removed whatever their age or the
day count; and with day count 0 every completed or moved record created
strictly before the purge time is removed. -/
theorem claim3_purge (s : StoreState) (days now : Nat) :
    ((clearOldReminders s now days).1.mem =
      s.mem.filter (fun r => !(decide (r.status ≠ Status.active) &&
        decide ((r.created : Int) < (now : Int) - (days : Int) * 86400000)))) ∧
    ((clearOldReminders s now days).2 =
      (s.mem.filter (fun r => decide (r.status ≠ Status.active) &&
        decide ((r.created : Int) < (now : Int) -
          (days : Int) * 86400000))).length) ∧
    ((clearOldReminders s now days).2 = 0 →
      (clearOldReminders s now days).1.disk = s.disk) ∧
    (0 < (clearOldReminders s now days).2 →
      (clearOldReminders s now days).1.disk =
        some (serializeStore (clearOldReminders s now days).1.mem)) ∧
    (∀ r ∈ s.mem, r.status = Status.active →
      r ∈ (clearOldReminders s now days).1.mem) ∧
    (∀ r ∈ s.mem, r.status ≠ Status.active → r.created < now →
      r ∉ (clearOldReminders s now 0).1.mem) := by
  refine ⟨?_, ?_, ?_, ?_, ?_, ?_⟩
  · rw [clearOldReminders_mem]
    rfl
  · rw [clearOldReminders_count]
    rfl
  · intro h
    rw [clearOldReminders_count] at h
    rw [clearOldReminders_eq, if_neg (by omega)]
  · intro h
    rw [clearOldReminders_count] at h
    rw [clearOldReminders_mem, clearOldReminders_eq, if_pos (by omega)]
  · intro r hr hact
    rw [clearOldReminders_mem, List.mem_filter]
    refine ⟨hr, ?_⟩
    simp [purgeCond, hact]
  · intro r hr hna hcreated
    rw [clearOldReminders_mem, List.mem_filter]
    rintro ⟨-, hkeep⟩
    have hp : purgeCond now 0 r = true := by
      simp only [purgeCond, ne_eq, hna, not_false_iff, decide_True,
        Bool.true_and, decide_eq_true_eq]
      omega
    rw [hp] at hkeep
    exact Bool.noConfusion hkeep

theorem mapSet_fresh {l : List Reminder} {r : Reminder}
    (h : findById l r.id = none) : mapSet l r = l ++ [r] := by
  simp only [mapSet, h, Option.isSome_none, Bool.false_eq_true, if_false]

/-- C7 counterexample: when the store already holds an active record with
the same content and priority as the added one, the following list of all
reminders contains two records matching the input by content, priority and
active status — not exactly one. -/
theorem claim7_add_counterexample :
    ((getReminders
        (addReminder
          { mem := [⟨"a", "x", Priority.normal, 0, none, Status.active⟩],
            disk := none } "x" Priority.normal "b" 5).1 "all").filter
      (fun r => decide (r.content = "x") &&
        decide (r.priority = Priority.normal) &&
        decide (r.status = Status.active))).length = 2 := by decide

/-- C7 (amended): adding a non-empty content with a priority under a fresh
id returns that id and stores an active record with that content, priority
and creation time; the immediately following list of all reminders contains
exactly one record bearing the returned id, and any record of the list
bearing it has the given content and priority and is active (matching by
content and priority alone can pick up pre-existing records, so uniqueness
is keyed by the returned id). -/
theorem claim7_add (s : StoreState) (content : String) (p : Priority)
    (id : String) (now : Nat) (hcontent : content ≠ "")
    (hfresh : findById s.mem id = none) :
    (addReminder s content p id now).2 = id ∧
    findById (addReminder s content p id now).1.mem id =
      some ⟨id, content, p, now, none, Status.active⟩ ∧
    ((getReminders (addReminder s content p id now).1 "all").filter
      (fun r => decide (r.id = id))).length = 1 ∧
    (∀ r ∈ getReminders (addReminder s content p id now).1 "all",
      r.id = id → r.content = content ∧ r.priority = p ∧
        r.status = Status.active) := by
  have hmem : (addReminder s content p id now).1.mem =
      s.mem ++ [⟨id, content, p, now, none, Status.active⟩] := by
    rw [addReminder_eq]
    exact mapSet_fresh hfresh
  have hnotin : ∀ r ∈ s.mem, r.id ≠ id := findById_eq_none_iff.mp hfresh
  refine ⟨rfl, ?_, ?_, ?_⟩
  · rw [hmem, findById_append_none hfresh]
    simp [findById]
  · have hperm : ((getReminders (addReminder s content p id now).1 "all").filter
        (fun r => decide (r.id = id))).Perm
        ((((addReminder s content p id now).1.mem.filter
          (selCond "all")).filter (fun r => decide (r.id = id)))) := by
      rw [getReminders_eq_sort_sel]
      exact (sortReminders_perm _).filter _
    rw [hperm.length_eq, filter_and, hmem, List.filter_append]
    have h0 : s.mem.filter
        (fun r => selCond "all" r && decide (r.id = id)) = [] := by
      apply List.filter_eq_nil_iff.mpr
      intro r hr
      simp [hnotin r hr]
    rw [h0]
    simp [selCond]
  · intro r hr hrid
    have hr2 := mem_getReminders.mp hr
    rw [List.mem_filter, hmem] at hr2
    rcases List.mem_append.mp hr2.1 with hin | hin
    · exact absurd hrid (hnotin r hin)
    · rw [List.mem_singleton.mp hin]
      exact ⟨rfl, rfl, rfl⟩

/-- Witness for C7: adding content x with a fresh id b to the two-record
store. -/
theorem claim7_add_witness :
    ("x" : String) ≠ "" ∧ findById sampleStore.mem "b2" = none ∧
    ((addReminder sampleStore "x" Priority.normal "b2" 20).2 = "b2" ∧
     findById (addReminder sampleStore "x" Priority.normal "b2" 20).1.mem "b2" =
       some ⟨"b2", "x", Priority.normal, 20, none, Status.active⟩ ∧
     ((getReminders (addReminder sampleStore "x" Priority.normal "b2" 20).1
         "all").filter (fun r => decide (r.id = "b2"))).length = 1 ∧
     (∀ r ∈ getReminders (addReminder sampleStore "x" Priority.normal "b2" 20).1
         "all", r.id = "b2" → r.content = "x" ∧ r.priority = Priority.normal ∧
           r.status = Status.active)) :=
  ⟨by decide, by decide,
    claim7_add sampleStore "x" Priority.normal "b2" 20 (by decide) (by decide)⟩

/-- C10: the store does not enforce the non-empty-content precondition:
adding the empty string still creates and persists an active record under
the returned fresh id, and that record is visible to the list, complete and
delete operations like any other. -/
theorem claim10_empty_content (s : StoreState) (p : Priority) (id : String)
    (now : Nat) (hfresh : findById s.mem id = none) :
    (addReminder s "" p id now).2 = id ∧
    findById (addReminder s "" p id now).1.mem id =
      some ⟨id, "", p, now, none, Status.active⟩ ∧
    (addReminder s "" p id now).1.disk =
      some (serializeStore (addReminder s "" p id now).1.mem) ∧
    (∃ r ∈ getReminders (addReminder s "" p id now).1 "all", r.id = id) ∧
    (∀ tnow, (completeReminder (addReminder s "" p id now).1 id tnow).2 = true) ∧
    (deleteReminder (addReminder s "" p id now).1 id).2 = true := by
  have hmem : (addReminder s "" p id now).1.mem =
      s.mem ++ [⟨id, "", p, now, none, Status.active⟩] := by
    rw [addReminder_eq]
    exact mapSet_fresh hfresh
  have hfind2 : findById (addReminder s "" p id now).1.mem id =
      some ⟨id, "", p, now, none, Status.active⟩ := by
    rw [hmem, findById_append_none hfresh]
    simp [findById]
  refine ⟨rfl, hfind2, rfl, ?_, ?_, ?_⟩
  · refine ⟨⟨id, "", p, now, none, Status.active⟩, ?_, rfl⟩
    rw [mem_getReminders, List.mem_filter, hmem]
    exact ⟨List.mem_append_right _ (List.mem_singleton_self _), by simp [selCond]⟩
  · intro tnow
    rw [completeReminder_active tnow hfind2 rfl]
  · rw [deleteReminder_some hfind2]

/-- Witness for C10: the empty content with fresh id b2 on the two-record
store. -/
theorem claim10_empty_content_witness :
    findById sampleStore.mem "b2" = none ∧
    ((addReminder sampleStore "" Priority.low "b2" 20).2 = "b2" ∧
     findById (addReminder sampleStore "" Priority.low "b2" 20).1.mem "b2" =
       some ⟨"b2", "", Priority.low, 20, none, Status.active⟩ ∧
     (addReminder sampleStore "" Priority.low "b2" 20).1.disk =
       some (serializeStore (addReminder sampleStore "" Priority.low "b2" 20).1.mem) ∧
     (∃ r ∈ getReminders (addReminder sampleStore "" Priority.low "b2" 20).1
        "all", r.id = "b2") ∧
     (∀ tnow, (completeReminder
        (addReminder sampleStore "" Priority.low "b2" 20).1 "b2" tnow).2 = true) ∧
     (deleteReminder (addReminder sampleStore "" Priority.low "b2" 20).1
        "b2").2 = true) :=
  ⟨by decide, claim10_empty_content sampleStore Priority.low "b2" 20 (by decide)⟩

theorem foldl_entrySet_append (es acc : List (String × Reminder))
    (hsep : ∀ e ∈ es, ∀ a ∈ acc, a.1 ≠ e.1)
    (hd : (es.map (fun p => p.1)).Nodup) :
    es.foldl entrySet acc = acc ++ es := by
  induction es generalizing acc with
  | nil => simp
  | cons e es ih =>
    simp only [List.map_cons, List.nodup_cons] at hd
    rw [List.foldl_cons]
    have hset : entrySet acc e = acc ++ [e] := by
      unfold entrySet
      rw [if_neg]
      simp only [List.any_eq_true, beq_iff_eq, not_exists, not_and]
      intro a ha hc
      exact hsep e (List.mem_cons_self _ _) a ha hc
    rw [hset, ih (acc ++ [e]) ?_ hd.2, List.append_assoc]
    rfl
    intro e2 he2 a ha
    rcases List.mem_append.mp ha with ha | ha
    · exact hsep e2 (List.mem_cons_of_mem _ he2) a ha
    · rw [List.mem_singleton.mp ha]
      intro hc
      exact hd.1 (hc ▸ List.mem_map_of_mem (fun p => p.1) he2)

theorem mapFromEntries_of_nodup (es : List (String × Reminder))
    (hd : (es.map (fun p => p.1)).Nodup) : mapFromEntries es = es := by
  unfold mapFromEntries
  rw [foldl_entrySet_append es [] (by simp) hd]
  rfl

/-- C8: serializing the in-memory store to its persisted form (the ordered
id-to-record object) and loading that form back reproduces the identical
record collection — same ids mapped to the same records — under the Map
key-uniqueness invariant. -/
theorem claim8_roundtrip (mem : List Reminder)
    (hd : (mem.map (fun r => r.id)).Nodup) :
    loadStore (serializeStore mem) = mem := by
  have hmap : ∀ l : List Reminder,
      (l.map (fun r => (r.id, r))).map (fun p => p.2) = l := by
    intro l
    induction l with
    | nil => rfl
    | cons r rs ih => simp only [List.map_cons, ih]
  unfold loadStore serializeStore
  rw [mapFromEntries_of_nodup]
  · exact hmap mem
  · simpa using hd

/-- Witness for C8: the mixed-status store round-trips. -/
theorem claim8_roundtrip_witness :
    loadStore (serializeStore mixedStore.mem) = mixedStore.mem :=
  claim8_roundtrip mixedStore.mem (by decide)

/-! ### The status state machine over operation sequences (C5) -/

/-- The per-record invariant of the Map: ids are unique keys, and the
completion timestamp is set exactly on the records of status completed. -/
def memInv (l : List Reminder) : Prop :=
  (l.map (fun r => r.id)).Nodup ∧
  ∀ r ∈ l, (r.completed.isSome ↔ r.status = Status.completed)

/-- The store invariant: the Map invariant of the in-memory records. -/
def StoreInv (s : StoreState) : Prop := memInv s.mem

/-- What one operation may do to a surviving record: id, content, priority
and created are untouched, and the status with its completion timestamp is
either unchanged, or stepped from active to completed with the completion
time set exactly there, or stepped from active to moved with the completion
timestamp still unset. -/
def TransOk (r r2 : Reminder) : Prop :=
  r2.id = r.id ∧ r2.content = r.content ∧ r2.priority = r.priority ∧
  r2.created = r.created ∧
  ((r2.status = r.status ∧ r2.completed = r.completed) ∨
   (r.status = Status.active ∧ r.completed = none ∧
     r2.status = Status.completed ∧ r2.completed.isSome = true) ∨
   (r.status = Status.active ∧ r.completed = none ∧
     r2.status = Status.moved ∧ r2.completed = none))

/-- A status change is caused only by a complete call on that id (to
completed) or by a move call on that id with a successful handoff (to
moved). -/
def TransBy (op : Op) (id : String) (r r2 : Reminder) : Prop :=
  r2.status ≠ r.status →
    ((r2.status = Status.completed ∧ ∃ n, op = Op.completeOp id n) ∨
     (r2.status = Status.moved ∧
       ∃ note d e, op = Op.moveOp id note true d e))

theorem transOk_refl (r : Reminder) : TransOk r r :=
  ⟨rfl, rfl, rfl, rfl, Or.inl ⟨rfl, rfl⟩⟩

theorem transSame (op : Op) (id : String) (r : Reminder) :
    TransOk r r ∧ TransBy op id r r :=
  ⟨transOk_refl r, fun hne => absurd rfl hne⟩

theorem completed_none_of_active {l : List Reminder} {r : Reminder}
    (hc : ∀ q ∈ l, (q.completed.isSome ↔ q.status = Status.completed))
    (hr : r ∈ l) (ha : r.status = Status.active) : r.completed = none := by
  cases hcomp : r.completed with
  | none => rfl
  | some t =>
    have h := (hc r hr).mp (by rw [hcomp]; rfl)
    rw [ha] at h
    exact Status.noConfusion h

theorem stepInv {s : StoreState} {op : Op} (hs : StoreInv s)
    (hf : opFresh s op) : StoreInv (applyOp s op) := by
  obtain ⟨hd, hc⟩ := hs
  cases op with
  | listOp f => exact ⟨hd, hc⟩
  | addOp c p i n =>
    have hfr : findById s.mem i = none := hf
    have hmem : (applyOp s (Op.addOp c p i n)).mem =
        s.mem ++ [⟨i, c, p, n, none, Status.active⟩] := by
      show (addReminder s c p i n).1.mem = _
      rw [addReminder_eq]
      exact mapSet_fresh hfr
    refine ⟨?_, ?_⟩ <;> rw [hmem]
    · rw [List.map_append]
      refine List.Nodup.append hd (List.nodup_singleton _) ?_
      intro a ha hb
      rcases List.mem_map.mp ha with ⟨q, hq, hqa⟩
      simp only [List.map_cons, List.map_nil, List.mem_singleton] at hb
      exact findById_eq_none_iff.mp hfr q hq (hqa.trans hb)
    · intro r hr
      rcases List.mem_append.mp hr with h | h
      · exact hc r h
      · rw [List.mem_singleton.mp h]
        simp
  | completeOp i n =>
    cases hfind : findById s.mem i with
    | none =>
      have : applyOp s (Op.completeOp i n) = s := by
        show (completeReminder s i n).1 = s
        rw [completeReminder_none n hfind]
      rw [this]
      exact ⟨hd, hc⟩
    | some q =>
      by_cases hact : q.status = Status.active
      · have hmem : (applyOp s (Op.completeOp i n)).mem =
            updateById s.mem i (completeMark n) := by
          show (completeReminder s i n).1.mem = _
          rw [completeReminder_active n hfind hact]
        refine ⟨?_, ?_⟩ <;> rw [hmem]
        · rw [@updateById_map_id s.mem i (completeMark n) (fun q => rfl)]
          exact hd
        · intro r hr
          rcases mem_updateById hr with h | ⟨q2, hq2, hq2i, hq2e⟩
          · exact hc r h
          · have : q2 = q := mem_id_unique hd hfind hq2 hq2i
            rw [hq2e]
            simp [completeMark]
      · have : applyOp s (Op.completeOp i n) = s := by
          show (completeReminder s i n).1 = s
          rw [completeReminder_notActive n hfind hact]
        rw [this]
        exact ⟨hd, hc⟩
  | deleteOp i =>
    cases hfind : findById s.mem i with
    | none =>
      have : applyOp s (Op.deleteOp i) = s := by
        show (deleteReminder s i).1 = s
        rw [deleteReminder_none hfind]
      rw [this]
      exact ⟨hd, hc⟩
    | some q =>
      have hmem : (applyOp s (Op.deleteOp i)).mem = removeById s.mem i := by
        show (deleteReminder s i).1.mem = _
        rw [deleteReminder_some hfind]
      refine ⟨?_, ?_⟩ <;> rw [hmem]
      · exact List.Nodup.sublist
          (List.Sublist.map _ (removeById_sublist s.mem i)) hd
      · intro r hr
        exact hc r ((removeById_sublist s.mem i).subset hr)
  | moveOp i note ok d e =>
    cases hfind : findById s.mem i with
    | none =>
      have : applyOp s (Op.moveOp i note ok d e) = s := by
        show (moveToNotes s i note ok d e).1 = s
        rw [moveToNotes_none hfind]
      rw [this]
      exact ⟨hd, hc⟩
    | some q =>
      by_cases hact : q.status = Status.active
      · cases ok with
        | false =>
          have : applyOp s (Op.moveOp i note false d e) = s := by
            show (moveToNotes s i note false d e).1 = s
            rw [moveToNotes_sinkFail hfind hact]
          rw [this]
          exact ⟨hd, hc⟩
        | true =>
          have hmem : (applyOp s (Op.moveOp i note true d e)).mem =
              updateById s.mem i moveMark := by
            show (moveToNotes s i note true d e).1.mem = _
            rw [moveToNotes_ok hfind hact]
          refine ⟨?_, ?_⟩ <;> rw [hmem]
          · rw [@updateById_map_id s.mem i moveMark (fun q => rfl)]
            exact hd
          · intro r hr
            rcases mem_updateById hr with h | ⟨q2, hq2, hq2i, hq2e⟩
            · exact hc r h
            · have hq2q : q2 = q := mem_id_unique hd hfind hq2 hq2i
              have hnone : q.completed = none :=
                completed_none_of_active hc (findById_mem hfind).1 hact
              rw [hq2e, hq2q]
              simp [moveMark, hnone]
      · have : applyOp s (Op.moveOp i note ok d e) = s := by
          show (moveToNotes s i note ok d e).1 = s
          rw [moveToNotes_notActive hfind hact]
        rw [this]
        exact ⟨hd, hc⟩
  | purgeOp dys n =>
    have hmem : (applyOp s (Op.purgeOp dys n)).mem =
        s.mem.filter (fun r => !purgeCond n dys r) := by
      show (clearOldReminders s n dys).1.mem = _
      rw [clearOldReminders_mem]
    refine ⟨?_, ?_⟩ <;> rw [hmem]
    · exact List.Nodup.sublist
        (List.Sublist.map _ (List.filter_sublist s.mem)) hd
    · intro r hr
      exact hc r ((List.filter_sublist s.mem).subset hr)

theorem stepTrans {s : StoreState} {op : Op} (hs : StoreInv s)
    (hf : opFresh s op) {id : String} {r r2 : Reminder}
    (h1 : findById s.mem id = some r)
    (h2 : findById (applyOp s op).mem id = some r2) :
    TransOk r r2 ∧ TransBy op id r r2 := by
  obtain ⟨hd, hc⟩ := hs
  cases op with
  | listOp f =>
    have h2x : findById s.mem id = some r2 := h2
    cases h1.symm.trans h2x
    exact transSame _ _ r
  | addOp c p i n =>
    have hfr : findById s.mem i = none := hf
    have hmem : (applyOp s (Op.addOp c p i n)).mem =
        s.mem ++ [⟨i, c, p, n, none, Status.active⟩] := by
      show (addReminder s c p i n).1.mem = _
      rw [addReminder_eq]
      exact mapSet_fresh hfr
    rw [hmem] at h2
    have h3 := @findById_append_some s.mem
      [⟨i, c, p, n, none, Status.active⟩] id r h1
    cases h3.symm.trans h2
    exact transSame _ _ r
  | completeOp i n =>
    cases hfind : findById s.mem i with
    | none =>
      have hmem : applyOp s (Op.completeOp i n) = s := by
        show (completeReminder s i n).1 = s
        rw [completeReminder_none n hfind]
      rw [hmem] at h2
      cases h1.symm.trans h2
      exact transSame _ _ r
    | some q =>
      by_cases hact : q.status = Status.active
      · have hmem : (applyOp s (Op.completeOp i n)).mem =
            updateById s.mem i (completeMark n) := by
          show (completeReminder s i n).1.mem = _
          rw [completeReminder_active n hfind hact]
        rw [hmem] at h2
        by_cases hi : id = i
        · subst hi
          cases h1.symm.trans hfind
          rw [@findById_updateById_self s.mem id (completeMark n)
            (fun x => rfl), h1, Option.map_some'] at h2
          cases h2
          refine ⟨⟨rfl, rfl, rfl, rfl, Or.inr (Or.inl
            ⟨hact, completed_none_of_active hc (findById_mem h1).1 hact,
              rfl, rfl⟩)⟩, ?_⟩
          intro _
          exact Or.inl ⟨rfl, n, rfl⟩
        · rw [@findById_updateById_ne s.mem i id (completeMark n)
            (fun x => rfl) hi] at h2
          cases h1.symm.trans h2
          exact transSame _ _ r
      · have hmem : applyOp s (Op.completeOp i n) = s := by
          show (completeReminder s i n).1 = s
          rw [completeReminder_notActive n hfind hact]
        rw [hmem] at h2
        cases h1.symm.trans h2
        exact transSame _ _ r
  | deleteOp i =>
    cases hfind : findById s.mem i with
    | none =>
      have hmem : applyOp s (Op.deleteOp i) = s := by
        show (deleteReminder s i).1 = s
        rw [deleteReminder_none hfind]
      rw [hmem] at h2
      cases h1.symm.trans h2
      exact transSame _ _ r
    | some q =>
      have hmem : (applyOp s (Op.deleteOp i)).mem = removeById s.mem i := by
        show (deleteReminder s i).1.mem = _
        rw [deleteReminder_some hfind]
      rw [hmem] at h2
      by_cases hi : id = i
      · subst hi
        rw [findById_removeById_self hd] at h2
        exact Option.noConfusion h2
      · rw [findById_removeById_ne hi] at h2
        cases h1.symm.trans h2
        exact transSame _ _ r
  | moveOp i note ok d e =>
    cases hfind : findById s.mem i with
    | none =>
      have hmem : applyOp s (Op.moveOp i note ok d e) = s := by
        show (moveToNotes s i note ok d e).1 = s
        rw [moveToNotes_none hfind]
      rw [hmem] at h2
      cases h1.symm.trans h2
      exact transSame _ _ r
    | some q =>
      by_cases hact : q.status = Status.active
      · cases ok with
        | false =>
          have hmem : applyOp s (Op.moveOp i note false d e) = s := by
            show (moveToNotes s i note false d e).1 = s
            rw [moveToNotes_sinkFail hfind hact]
          rw [hmem] at h2
          cases h1.symm.trans h2
          exact transSame _ _ r
        | true =>
          have hmem : (applyOp s (Op.moveOp i note true d e)).mem =
              updateById s.mem i moveMark := by
            show (moveToNotes s i note true d e).1.mem = _
            rw [moveToNotes_ok hfind hact]
          rw [hmem] at h2
          by_cases hi : id = i
          · subst hi
            cases h1.symm.trans hfind
            rw [@findById_updateById_self s.mem id moveMark (fun x => rfl),
              h1, Option.map_some'] at h2
            cases h2
            have hnone : r.completed = none :=
              completed_none_of_active hc (findById_mem h1).1 hact
            refine ⟨⟨rfl, rfl, rfl, rfl, Or.inr (Or.inr
              ⟨hact, hnone, rfl, hnone⟩)⟩, ?_⟩
            intro _
            exact Or.inr ⟨rfl, note, d, e, rfl⟩
          · rw [@findById_updateById_ne s.mem i id moveMark
              (fun x => rfl) hi] at h2
            cases h1.symm.trans h2
            exact transSame _ _ r
      · have hmem : applyOp s (Op.moveOp i note ok d e) = s := by
          show (moveToNotes s i note ok d e).1 = s
          rw [moveToNotes_notActive hfind hact]
        rw [hmem] at h2
        cases h1.symm.trans h2
        exact transSame _ _ r
  | purgeOp dys n =>
    have hmem : (applyOp s (Op.purgeOp dys n)).mem =
        s.mem.filter (fun r => !purgeCond n dys r) := by
      show (clearOldReminders s n dys).1.mem = _
      rw [clearOldReminders_mem]
    rw [hmem] at h2
    rcases findById_mem h2 with ⟨hr2m, hr2i⟩
    have hr2mem : r2 ∈ s.mem := (List.filter_sublist s.mem).subset hr2m
    cases mem_id_unique hd h1 hr2mem hr2i
    exact transSame _ _ r

theorem stepNew {s : StoreState} {op : Op} (hs : StoreInv s)
    (hf : opFresh s op) {id : String} {r2 : Reminder}
    (h1 : findById s.mem id = none)
    (h2 : findById (applyOp s op).mem id = some r2) :
    r2.status = Status.active ∧ r2.completed = none := by
  obtain ⟨hd, hc⟩ := hs
  cases op with
  | listOp f =>
    have h2x : findById s.mem id = some r2 := h2
    rw [h1] at h2x
    exact Option.noConfusion h2x
  | addOp c p i n =>
    have hfr : findById s.mem i = none := hf
    have hmem : (applyOp s (Op.addOp c p i n)).mem =
        s.mem ++ [⟨i, c, p, n, none, Status.active⟩] := by
      show (addReminder s c p i n).1.mem = _
      rw [addReminder_eq]
      exact mapSet_fresh hfr
    rw [hmem, findById_append_none h1] at h2
    simp only [findById] at h2
    split at h2
    · cases h2
      exact ⟨rfl, rfl⟩
    · exact Option.noConfusion h2
  | completeOp i n =>
    cases hfind : findById s.mem i with
    | none =>
      have hmem : applyOp s (Op.completeOp i n) = s := by
        show (completeReminder s i n).1 = s
        rw [completeReminder_none n hfind]
      rw [hmem, h1] at h2
      exact Option.noConfusion h2
    | some q =>
      by_cases hact : q.status = Status.active
      · have hmem : (applyOp s (Op.completeOp i n)).mem =
            updateById s.mem i (completeMark n) := by
          show (completeReminder s i n).1.mem = _
          rw [completeReminder_active n hfind hact]
        rw [hmem] at h2
        by_cases hi : id = i
        · subst hi
          rw [h1] at hfind
          exact Option.noConfusion hfind
        · rw [@findById_updateById_ne s.mem i id (completeMark n)
            (fun x => rfl) hi, h1] at h2
          exact Option.noConfusion h2
      · have hmem : applyOp s (Op.completeOp i n) = s := by
          show (completeReminder s i n).1 = s
          rw [completeReminder_notActive n hfind hact]
        rw [hmem, h1] at h2
        exact Option.noConfusion h2
  | deleteOp i =>
    cases hfind : findById s.mem i with
    | none =>
      have hmem : applyOp s (Op.deleteOp i) = s := by
        show (deleteReminder s i).1 = s
        rw [deleteReminder_none hfind]
      rw [hmem, h1] at h2
      exact Option.noConfusion h2
    | some q =>
      have hmem : (applyOp s (Op.deleteOp i)).mem = removeById s.mem i := by
        show (deleteReminder s i).1.mem = _
        rw [deleteReminder_some hfind]
      rw [hmem] at h2
      rcases findById_mem h2 with ⟨hr2m, hr2i⟩
      exact absurd hr2i (findById_eq_none_iff.mp h1 r2
        ((removeById_sublist s.mem i).subset hr2m))
  | moveOp i note ok d e =>
    cases hfind : findById s.mem i with
    | none =>
      have hmem : applyOp s (Op.moveOp i note ok d e) = s := by
        show (moveToNotes s i note ok d e).1 = s
        rw [moveToNotes_none hfind]
      rw [hmem, h1] at h2
      exact Option.noConfusion h2
    | some q =>
      by_cases hact : q.status = Status.active
      · cases ok with
        | false =>
          have hmem : applyOp s (Op.moveOp i note false d e) = s := by
            show (moveToNotes s i note false d e).1 = s
            rw [moveToNotes_sinkFail hfind hact]
          rw [hmem, h1] at h2
          exact Option.noConfusion h2
        | true =>
          have hmem : (applyOp s (Op.moveOp i note true d e)).mem =
              updateById s.mem i moveMark := by
            show (moveToNotes s i note true d e).1.mem = _
            rw [moveToNotes_ok hfind hact]
          rw [hmem] at h2
          by_cases hi : id = i
          · subst hi
            rw [h1] at hfind
            exact Option.noConfusion hfind
          · rw [@findById_updateById_ne s.mem i id moveMark
              (fun x => rfl) hi, h1] at h2
            exact Option.noConfusion h2
      · have hmem : applyOp s (Op.moveOp i note ok d e) = s := by
          show (moveToNotes s i note ok d e).1 = s
          rw [moveToNotes_notActive hfind hact]
        rw [hmem, h1] at h2
        exact Option.noConfusion h2
  | purgeOp dys n =>
    have hmem : (applyOp s (Op.purgeOp dys n)).mem =
        s.mem.filter (fun r => !purgeCond n dys r) := by
      show (clearOldReminders s n dys).1.mem = _
      rw [clearOldReminders_mem]
    rw [hmem] at h2
    rcases findById_mem h2 with ⟨hr2m, hr2i⟩
    exact absurd hr2i (findById_eq_none_iff.mp h1 r2
      ((List.filter_sublist s.mem).subset hr2m))

theorem storeInv_runFrom {s : StoreState} {ops : List Op} (hs : StoreInv s)
    (hfr : FreshRun s ops) : StoreInv (runFrom s ops) := by
  induction ops generalizing s with
  | nil => exact hs
  | cons op ops ih => exact ih (stepInv hs hfr.1) hfr.2

theorem storeInv_start : StoreInv startState :=
  ⟨List.nodup_nil, fun r hr => absurd hr (List.not_mem_nil r)⟩

/-- C5: in every state reachable from the empty store by a sequence of
operations whose generated ids are fresh, the Map invariant holds (unique
ids; the completion timestamp is set exactly on the completed records), and
one further operation can only leave each surviving record unchanged, step
it from active to completed — only through a complete call on its id, which
is the one point where the completion timestamp is set — or step it from
active to moved — only through a move call on its id whose handoff
succeeded, the completion timestamp staying unset. The id, content,
priority and created fields never change, completed and moved records are
never re-transitioned (they can only disappear), and a record that newly
appears is active with no completion timestamp. -/
theorem claim5_state_machine (ops : List Op)
    (hfresh : FreshRun startState ops) :
    StoreInv (runFrom startState ops) ∧
    (∀ op, opFresh (runFrom startState ops) op →
      (∀ id r r2, findById (runFrom startState ops).mem id = some r →
        findById (applyOp (runFrom startState ops) op).mem id = some r2 →
        TransOk r r2 ∧ TransBy op id r r2) ∧
      (∀ id r2, findById (runFrom startState ops).mem id = none →
        findById (applyOp (runFrom startState ops) op).mem id = some r2 →
        r2.status = Status.active ∧ r2.completed = none)) := by
  have hinv := storeInv_runFrom storeInv_start hfresh
  exact ⟨hinv, fun op hop =>
    ⟨fun id r r2 ha hb => stepTrans hinv hop ha hb,
     fun id r2 ha hb => stepNew hinv hop ha hb⟩⟩

/-- Witness for C5: the one-operation run that adds a record. -/
theorem claim5_state_machine_witness :
    FreshRun startState [Op.addOp "x" Priority.normal "a" 1] ∧
    (StoreInv (runFrom startState [Op.addOp "x" Priority.normal "a" 1]) ∧
     (∀ op, opFresh (runFrom startState [Op.addOp "x" Priority.normal "a" 1])
        op →
       (∀ id r r2, findById
          (runFrom startState [Op.addOp "x" Priority.normal "a" 1]).mem id =
            some r →
        findById (applyOp
          (runFrom startState [Op.addOp "x" Priority.normal "a" 1]) op).mem
            id = some r2 →
        TransOk r r2 ∧ TransBy op id r r2) ∧
       (∀ id r2, findById
          (runFrom startState [Op.addOp "x" Priority.normal "a" 1]).mem id =
            none →
        findById (applyOp
          (runFrom startState [Op.addOp "x" Priority.normal "a" 1]) op).mem
            id = some r2 →
        r2.status = Status.active ∧ r2.completed = none))) :=
  ⟨⟨rfl, trivial⟩, claim5_state_machine _ ⟨rfl, trivial⟩⟩

end Reminders
